import Mathlib

/-! # agologo: option builders, request construction and response decoding

A shallow embedding of `client.go` and `error.go`.

* Go functions that mutate a value through a pointer or a map reference
  (`func(*Summarize)`, `func(map[string]interface{})`) are functions
  from the old value to the new one.
* The HTTP client is a state-passing function: one call of it is one round trip.
* The parts of the Go standard library the package calls (`encoding/json`,
  `net/url`, `net/http`, `fmt`) are modelled in namespaces named after the
  Go packages, as far as the package exercises them.  Go strings are Lean
  strings (well-formed Unicode); Go's `int` and `int64` are `Int`.
-/

set_option autoImplicit false
set_option linter.dupNamespace false

/-! ## Go maps and slices -/

/-- A Go map with string keys, as an association list holding every key at
most once.  Only `GoMap.get` and the key-sorted `GoMap.sorted` observe it, so
the position of an entry carries no meaning (Go maps are unordered). -/
abbrev GoMap (α : Type) := List (String × α)

namespace GoMap

/-- Reading `m[k]` with the comma-ok form: the value, or `none` when the key is absent. -/
def get {α : Type} (m : GoMap α) (k : String) : Option α :=
  match m with
  | [] => none
  | (k', v) :: rest => if k' = k then some v else get rest k

/-- Removing a key: `delete(m, k)`. -/
def delete {α : Type} (m : GoMap α) (k : String) : GoMap α :=
  m.filter (fun p => decide (p.1 ≠ k))

/-- The assignment `m[k] = v`: a previous entry for `k` is replaced. -/
def set {α : Type} (m : GoMap α) (k : String) (v : α) : GoMap α :=
  (k, v) :: delete m k

/-- The keys present in the map. -/
def keys {α : Type} (m : GoMap α) : List String :=
  m.map Prod.fst

/-- Order on keys used by `encoding/json` when it writes a map: byte-wise
comparison of the keys, which on UTF-8 is the comparison of code points. -/
def keyLE (a b : String) : Prop := a.toList ≤ b.toList

instance keyLE.decidable (a b : String) : Decidable (keyLE a b) :=
  inferInstanceAs (Decidable (a.toList ≤ b.toList))

/-- The entries in increasing key order. -/
def sorted {α : Type} (m : GoMap α) : List (String × α) :=
  List.insertionSort (fun p q => keyLE p.1 q.1) m

end GoMap

/-- A Go slice, as far as its contents go: `none` is the nil slice, `some xs`
a non-nil slice with elements `xs` (`some []` is the empty, non-nil slice).
Capacity and sharing of backing arrays are not represented. -/
abbrev Slice (α : Type) := Option (List α)

namespace Slice

/-- The elements of a slice; the nil slice has none. -/
def elems {α : Type} (s : Slice α) : List α :=
  match s with
  | none => []
  | some xs => xs

/-- The builtin `append(s, a)` with one element: the result is never nil. -/
def append {α : Type} (s : Slice α) (a : α) : Slice α :=
  some (elems s ++ [a])

end Slice

namespace strconv

/-- Decimal rendering of an integer, as `strconv.FormatInt(n, 10)`: the
digits of the magnitude, preceded by `-` for a negative number. -/
def FormatInt (n : Int) : String :=
  if n < 0 then "-" ++ Nat.repr n.natAbs else Nat.repr n.natAbs

end strconv

namespace strings

/-- The result of `strings.Cut(s, sep)` for a one-byte separator: the text
before the first separator, the text after it, and whether it was found. -/
def Cut (sep : Char) : List Char → List Char × List Char × Bool
  | [] => ([], [], false)
  | c :: cs =>
    if c = sep then ([], cs, true)
    else
      let r := Cut sep cs
      (c :: r.1, r.2.1, r.2.2)

/-- All pieces of `s` between separators, as the repeated `strings.Cut` of
`resolvePath` yields them: never empty, the last piece is what follows the
last separator. -/
def Split (sep : Char) : List Char → List (List Char)
  | [] => [[]]
  | c :: cs =>
    if c = sep then [] :: Split sep cs
    else
      match Split sep cs with
      | [] => [[c]]
      | piece :: pieces => (c :: piece) :: pieces

/-- The text up to and including the last separator (`s[:i+1]` for
`i = strings.LastIndex(s, sep)`), empty when there is none. -/
def throughLast (sep : Char) : List Char → List Char
  | [] => []
  | c :: cs =>
    if cs.contains sep then c :: throughLast sep cs
    else if c = sep then [c] else []

/-- The text before the last separator (`s[:i]` for
`i = strings.LastIndexByte(s, sep)`), `none` when there is none. -/
def beforeLast (sep : Char) : List Char → Option (List Char)
  | [] => none
  | c :: cs =>
    match beforeLast sep cs with
    | some r => some (c :: r)
    | none => if c = sep then some [] else none

/-- ASCII lower-casing of one byte. -/
def lowerByte (c : Char) : Char :=
  if 65 ≤ c.toNat ∧ c.toNat ≤ 90 then Char.ofNat (c.toNat + 32) else c

/-- ASCII upper-casing of one byte. -/
def upperByte (c : Char) : Char :=
  if 97 ≤ c.toNat ∧ c.toNat ≤ 122 then Char.ofNat (c.toNat - 32) else c

/-- Whether the byte is an ASCII letter. -/
def isLetter (c : Char) : Bool :=
  (65 ≤ c.toNat && c.toNat ≤ 90) || (97 ≤ c.toNat && c.toNat ≤ 122)

/-- Whether the byte is an ASCII digit. -/
def isDigit (c : Char) : Bool :=
  48 ≤ c.toNat && c.toNat ≤ 57

end strings

namespace json

/-- The digits `encoding/json` uses for `\u00XX` escapes. -/
def hex (n : Nat) : Char :=
  "0123456789abcdef".toList.getD n (Char.ofNat 48)

/-- What the encoder writes for one code point inside a JSON string, with
HTML escaping on (the default of `json.Encoder`): the quotation mark and the
backslash get a backslash, backspace, form feed, line feed, carriage return
and tab their short escapes, the other bytes below 0x20 and `<`, `>`, `&` a
`\u00XX` escape, U+2028 and U+2029 a `\u202X` escape; every other code point
is copied. -/
def escapeRune (c : Char) : String :=
  let n := c.toNat
  if n = 0x22 then "\\\""
  else if n = 0x5c then "\\\\"
  else if n = 0x08 then "\\b"
  else if n = 0x0c then "\\f"
  else if n = 0x0a then "\\n"
  else if n = 0x0d then "\\r"
  else if n = 0x09 then "\\t"
  else if n < 0x20 ∨ n = 0x3c ∨ n = 0x3e ∨ n = 0x26 then
    String.mk [Char.ofNat 0x5c, Char.ofNat 0x75, Char.ofNat 0x30, Char.ofNat 0x30, hex (n / 16), hex (n % 16)]
  else if n = 0x2028 then "\\u2028"
  else if n = 0x2029 then "\\u2029"
  else String.singleton c

/-- A Go string as a JSON string literal. -/
def quote (s : String) : String :=
  "\"" ++ String.join (s.toList.map escapeRune) ++ "\""

/-- A Go bool as a JSON literal. -/
def bool (b : Bool) : String :=
  if b then "true" else "false"

/-- A Go `map[string]interface{}` holding strings: a JSON object with the
keys in sorted order (a nil map would be `null`; the package never builds one). -/
def object (m : GoMap String) : String :=
  "\x7b" ++ String.intercalate "," ((GoMap.sorted m).map (fun p => quote p.1 ++ ":" ++ quote p.2)) ++ "\x7d"

/-- A Go slice of such maps: `null` for the nil slice, else a JSON array. -/
def array (s : Slice (GoMap String)) : String :=
  match s with
  | none => "null"
  | some xs => "[" ++ String.intercalate "," (xs.map object) ++ "]"

/-! ### Decoding

The decoder works on the first JSON value of its input stream.  That value
is a tree: the members of an object in the order they are written, repeated
keys included. -/

/-- A JSON number as written: an integer literal (digits with an optional
minus sign), or a literal `lit` with a fraction or an exponent, standing for
`mant * 10 ^ exp`. -/
inductive Number where
  | int (n : Int)
  | real (lit : String) (mant : Int) (exp : Int)
  deriving DecidableEq, Repr

/-- The text of the number in the input, which the decoder quotes in its
errors: an integer literal is the decimal rendering of its value. -/
def Number.literal : Number → String
  | .int n => strconv.FormatInt n
  | .real lit _ _ => lit

/-- A JSON value.  The same type stands for what the decoder stores in a Go
`interface{}` (nil, bool, float64, string, `[]interface{}`,
`map[string]interface{}`): the float64 is represented by the number it was
read from, rounding is not modelled. -/
inductive Value where
  | null
  | bool (b : Bool)
  | num (n : Number)
  | str (s : String)
  | arr (xs : List Value)
  | obj (kvs : List (String × Value))
  deriving Repr

/-- An error returned by `(*json.Decoder).Decode`. -/
inductive Error where
  /-- The stream does not yield a JSON value: `io.EOF`, a read error or a `*json.SyntaxError`. -/
  | read (msg : String)
  /-- A `*json.UnmarshalTypeError` with its fields `Value` and `Type`: the
  JSON value `value` does not fit the Go type `goType`.  The fields `Offset`,
  `Struct` and `Field` of the Go error are not kept. -/
  | unmarshalType (value : String) (goType : String)
  deriving DecidableEq, Repr

/-- The first error wins: `saveError` keeps an error already recorded. -/
def saveError (saved new : Option Error) : Option Error :=
  match saved with
  | some e => some e
  | none => new

/-- How an `UnmarshalTypeError` names the JSON value. -/
def Value.describe : Value → String
  | .null => "null"
  | .bool _ => "bool"
  | .num _ => "number"
  | .str _ => "string"
  | .arr _ => "array"
  | .obj _ => "object"

/-- The magnitude from which `strconv.ParseFloat(s, 64)` reports a range
error: `2^1024 - 2^970`, halfway between the largest float64 and `2^1024`. -/
def float64Limit : Nat := 2 ^ 256 * 2 ^ 256 * 2 ^ 256 * 2 ^ 202 * (2 ^ 54 - 1)

/-- Whether the number converts to a float64 (`convertNumber` succeeds). -/
def Number.fitsFloat64 : Number → Bool
  | .int n => n.natAbs < float64Limit
  | .real _ m e =>
    if 0 ≤ e then m.natAbs * 10 ^ e.toNat < float64Limit
    else m.natAbs < float64Limit * 10 ^ (-e).toNat

mutual
/-- The first number of the value, in reading order, that does not convert to a float64. -/
def Value.firstBad : Value → Option Error
  | .null => none
  | .bool _ => none
  | .num n =>
    if n.fitsFloat64 then none else some (.unmarshalType ("number " ++ n.literal) "float64")
  | .str _ => none
  | .arr xs => firstBadList xs
  | .obj kvs => firstBadMembers kvs
/-- The function `Value.firstBad` over the elements of an array. -/
def firstBadList : List Value → Option Error
  | [] => none
  | x :: xs => saveError (Value.firstBad x) (firstBadList xs)
/-- The function `Value.firstBad` over the members of an object. -/
def firstBadMembers : List (String × Value) → Option Error
  | [] => none
  | (_, x) :: kvs => saveError (Value.firstBad x) (firstBadMembers kvs)
end

mutual
/-- What `valueInterface` builds for a JSON value: a number that does not
convert becomes nil, an object becomes a map (of repeated keys the last one
stays). -/
def Value.toInterface : Value → Value
  | .null => .null
  | .bool b => .bool b
  | .num n => if n.fitsFloat64 then .num n else .null
  | .str s => .str s
  | .arr xs => .arr (toInterfaceList xs)
  | .obj kvs => .obj (toInterfaceMembers kvs)
/-- The function `Value.toInterface` over the elements of an array. -/
def toInterfaceList : List Value → List Value
  | [] => []
  | x :: xs => Value.toInterface x :: toInterfaceList xs
/-- The function `Value.toInterface` over the members of an object. -/
def toInterfaceMembers : List (String × Value) → List (String × Value)
  | [] => []
  | (k, x) :: kvs =>
    let m := toInterfaceMembers kvs
    if (m.map Prod.fst).contains k then m else (k, Value.toInterface x) :: m
end

/-- Decoding a JSON value into a Go variable of some type: the new content
of the variable and the error saved on the way, if any.  The variable keeps
what the decoder does not overwrite. -/
abbrev Decoder (α : Type) := Value → α → α × Option Error

/-- Target `string`: a JSON string is stored, `null` changes nothing, any
other value is a type error and changes nothing. -/
def decString : Decoder String := fun v t =>
  match v with
  | .null => (t, none)
  | .str s => (s, none)
  | other => (t, some (.unmarshalType other.describe "string"))

/-- Target `int` or `int64` (64 bits): an integer literal in range is
stored, `null` changes nothing, any other value (a literal with fraction or
exponent, a number out of range, a non-number) is a type error and changes
nothing; the error quotes the literal of a number. -/
def decInt (goType : String) : Decoder Int := fun v t =>
  match v with
  | .null => (t, none)
  | .num (.int n) =>
    if -(2 ^ 63) ≤ n ∧ n < 2 ^ 63 then (n, none)
    else (t, some (.unmarshalType ("number " ++ strconv.FormatInt n) goType))
  | .num (.real lit _ _) => (t, some (.unmarshalType ("number " ++ lit) goType))
  | other => (t, some (.unmarshalType other.describe goType))

/-- Target `interface{}`: `null` stores nil; a number that does not convert
to float64 is an error and changes nothing; every other value is stored as
`valueInterface` builds it. -/
def decAny : Decoder Value := fun v t =>
  match v with
  | .null => (.null, none)
  | .num n =>
    if n.fitsFloat64 then (.num n, none)
    else (t, some (.unmarshalType ("number " ++ n.literal) "float64"))
  | other => (other.toInterface, other.firstBad)

/-- The element loop of `(*decodeState).array`: element `i` of the JSON
array is decoded into element `i` of the slice, a fresh zero element where
the slice was shorter. -/
def decElems {α : Type} (zero : α) (d : Decoder α) : List Value → List α → List α × Option Error
  | [], _ => ([], none)
  | x :: xs, prev =>
    let r := d x (prev.headD zero)
    let rs := decElems zero d xs prev.tail
    (r.1 :: rs.1, saveError r.2 rs.2)

/-- Target `[]T`: `null` stores the nil slice, an array stores a slice of
its length (non-nil also when empty), any other value is a type error and
changes nothing. -/
def decSlice {α : Type} (goType : String) (zero : α) (d : Decoder α) : Decoder (Slice α) := fun v t =>
  match v with
  | .null => (none, none)
  | .arr xs =>
    let r := decElems zero d xs (Slice.elems t)
    (some r.1, r.2)
  | other => (t, some (.unmarshalType other.describe goType))

/-- The fold of one code point of a key (`foldName`): ASCII letters to upper
case; U+212A (Kelvin sign) and U+017F (long s), the two code points outside
ASCII whose case orbit has ASCII letters, to `K` and `S`. -/
def foldRune (c : Char) : Char :=
  if c.toNat = 0x212a then Char.ofNat 0x4b
  else if c.toNat = 0x17f then Char.ofNat 0x53
  else strings.upperByte c

/-- The folded form of a key, for the case-insensitive match of field names. -/
def foldName (key : String) : List Char :=
  key.toList.map foldRune

/-- A field of a struct type `σ` as the decoder sees it: its JSON name (from
the `json:"..."` tag) and the decoding of a value into that field. -/
structure Field (σ : Type) where
  name : String
  decode : Value → σ → σ × Option Error

/-- The field a key of a JSON object selects: the field of exactly that
name, else the first field whose folded name equals the folded key. -/
def findField {σ : Type} (fields : List (Field σ)) (key : String) : Option (Field σ) :=
  match fields.find? (fun f => decide (f.name = key)) with
  | some f => some f
  | none => fields.find? (fun f => decide (foldName f.name = foldName key))

/-- The member loop of `(*decodeState).object` for a struct: each member in
turn is decoded into the field its key selects, or skipped when no field matches. -/
def decMembers {σ : Type} (fields : List (Field σ)) : List (String × Value) → σ → σ × Option Error
  | [], t => (t, none)
  | (k, x) :: kvs, t =>
    match findField fields k with
    | none => decMembers fields kvs t
    | some f =>
      let r := f.decode x t
      let rs := decMembers fields kvs r.1
      (rs.1, saveError r.2 rs.2)

/-- Target a struct: an object is decoded member by member, `null` changes
nothing, any other value is a type error and changes nothing. -/
def decStruct {σ : Type} (goType : String) (fields : List (Field σ)) : Decoder σ := fun v t =>
  match v with
  | .null => (t, none)
  | .obj kvs => decMembers fields kvs t
  | other => (t, some (.unmarshalType other.describe goType))

/-- What `json.NewDecoder(r).Decode` finds on the stream `r`: either no
JSON value that its scanner accepts (the stream ends, fails, or holds text
that is no JSON or is nested deeper than the scanner allows; the call
returns `err` and leaves its target alone), or a first JSON value. -/
inductive Stream where
  | broken (err : String)
  | value (v : Value)
  deriving Repr

/-- The call `json.NewDecoder(r).Decode(&t)` for a target decoded by `d`. -/
def Decode {α : Type} (d : Decoder α) (r : Stream) (t : α) : α × Option Error :=
  match r with
  | .broken err => (t, some (.read err))
  | .value v => d v t

end json

/-! ## `net/url`

The model keeps a URL's scheme, authority, path, query and fragment as they
are written.  Percent-decoding of the path and fragment, the split of the
authority into user information and host and the validation of the host are
not modelled: `Path` and `Host` hold the text of the URL, which is what Go
stores when that text has no `%`, no `@` and a well-formed host. -/

namespace url

/-- The fields of `url.URL` the model keeps. -/
structure URL where
  Scheme : String
  OpaquePart : String
  Host : String
  Path : String
  OmitHost : Bool
  ForceQuery : Bool
  RawQuery : String
  Fragment : String
  deriving DecidableEq, Repr

/-- The zero `url.URL`. -/
def URL.zero : URL :=
  { Scheme := "", OpaquePart := "", Host := "", Path := "", OmitHost := false,
    ForceQuery := false, RawQuery := "", Fragment := "" }

/-- Whether the text has an ASCII control byte (`stringContainsCTLByte`). -/
def containsCTL (s : List Char) : Bool :=
  s.any (fun c => c.toNat < 0x20 || c.toNat = 0x7f)

/-- The loop of `getScheme` from position `i`, with the bytes read so far in
`seen` (reversed): the scheme and the rest, or `none` for the error
`missing protocol scheme`. -/
def getSchemeFrom (whole : List Char) : List Char → List Char → Option (List Char × List Char)
  | _, [] => some ([], whole)
  | seen, c :: cs =>
    if strings.isLetter c then getSchemeFrom whole (c :: seen) cs
    else if strings.isDigit c || c.toNat = 0x2b || c.toNat = 0x2d || c.toNat = 0x2e then
      if seen.isEmpty then some ([], whole) else getSchemeFrom whole (c :: seen) cs
    else if c.toNat = 0x3a then
      if seen.isEmpty then none else some (seen.reverse, cs)
    else some ([], whole)

/-- The function `getScheme`. -/
def getScheme (rawURL : List Char) : Option (List Char × List Char) :=
  getSchemeFrom rawURL [] rawURL

/-- The unexported `parse(rawURL, false)`, on the part of the URL before `#`. -/
def parseNoFragment (rawURL : List Char) : Except String URL :=
  if containsCTL rawURL then .error "net/url: invalid control character in URL"
  else if rawURL = [Char.ofNat 0x2a] then .ok { URL.zero with Path := "*" }
  else
    match getScheme rawURL with
    | none => .error "missing protocol scheme"
    | some (scheme, rest0) =>
      let scheme := scheme.map strings.lowerByte
      let q := strings.Cut (Char.ofNat 0x3f) rest0
      let force : Bool := q.2.2 && q.2.1.isEmpty
      let rest := q.1
      let query := q.2.1
      let slash := Char.ofNat 0x2f
      let u : URL := { URL.zero with Scheme := String.mk scheme, ForceQuery := force, RawQuery := String.mk query }
      if rest.head? ≠ some slash ∧ ¬ scheme.isEmpty then
        .ok { u with OpaquePart := String.mk rest }
      else if rest.head? ≠ some slash ∧ (strings.Cut slash rest).1.contains (Char.ofNat 0x3a) then
        .error "first path segment in URL cannot contain colon"
      else if (¬ scheme.isEmpty ∨ ¬ [slash, slash, slash].isPrefixOf rest) ∧ [slash, slash].isPrefixOf rest then
        let a := strings.Cut slash (rest.drop 2)
        let path := if a.2.2 then slash :: a.2.1 else []
        .ok { u with Host := String.mk a.1, Path := String.mk path }
      else if ¬ scheme.isEmpty ∧ rest.head? = some slash then
        .ok { u with OmitHost := true, Path := String.mk rest }
      else
        .ok { u with Path := String.mk rest }

/-- The function `url.Parse`: the fragment is cut off at the first `#`, the
rest goes through `parse`. -/
def Parse (rawURL : String) : Except String URL :=
  let f := strings.Cut (Char.ofNat 0x23) rawURL.toList
  match parseNoFragment f.1 with
  | .error e => .error e
  | .ok u => .ok { u with Fragment := String.mk f.2.1 }

/-- One step of the dot-segment loop of `resolvePath`: `dst` is the text
written after the leading slash. -/
def resolveStep (st : List Char × Bool) (elem : List Char) : List Char × Bool :=
  let dot := Char.ofNat 0x2e
  let slash := Char.ofNat 0x2f
  if elem = [dot] then (st.1, false)
  else if elem = [dot, dot] then
    match strings.beforeLast slash st.1 with
    | none => ([], true)
    | some keep => (keep, st.2)
  else
    ((if st.2 then st.1 else st.1 ++ [slash]) ++ elem, false)

/-- The function `resolvePath(base, ref)`. -/
def resolvePath (base ref : List Char) : List Char :=
  let dot := Char.ofNat 0x2e
  let slash := Char.ofNat 0x2f
  let full :=
    if ref.isEmpty then base
    else if ref.head? ≠ some slash then strings.throughLast slash base ++ ref
    else ref
  if full.isEmpty then []
  else
    let elems := strings.Split slash full
    let st := elems.foldl resolveStep ([], true)
    let last := elems.getLast?
    let dst := if last = some [dot] ∨ last = some [dot, dot] then st.1 ++ [slash] else st.1
    if dst.head? = some slash then dst else slash :: dst

/-- The method `(*URL).ResolveReference`. -/
def URL.ResolveReference (u ref : URL) : URL :=
  let r : URL := if ref.Scheme = "" then { ref with Scheme := u.Scheme } else ref
  if ref.Scheme ≠ "" ∨ ref.Host ≠ "" then
    { r with Path := String.mk (resolvePath ref.Path.toList []) }
  else if ref.OpaquePart ≠ "" then
    { r with Host := "", Path := "" }
  else
    let r : URL :=
      if ref.Path = "" ∧ ¬ ref.ForceQuery ∧ ref.RawQuery = "" then
        { r with RawQuery := u.RawQuery, Fragment := if ref.Fragment = "" then u.Fragment else r.Fragment }
      else r
    if ref.Path = "" ∧ u.OpaquePart ≠ "" then
      { r with OpaquePart := u.OpaquePart, Host := "", Path := "" }
    else
      { r with Host := u.Host, Path := String.mk (resolvePath u.Path.toList ref.Path.toList) }

/-- The method `(*URL).String`, without the percent-encoding of host, path
and fragment: what Go writes for a URL in which nothing needs escaping. -/
def URL.String (u : URL) : String :=
  let slash := Char.ofNat 0x2f
  let scheme := if u.Scheme ≠ "" then u.Scheme ++ ":" else ""
  let rest :=
    if u.OpaquePart ≠ "" then u.OpaquePart
    else
      let authority :=
        if u.Scheme ≠ "" ∨ u.Host ≠ "" then
          if u.OmitHost ∧ u.Host = "" then ""
          else (if u.Host ≠ "" ∨ u.Path ≠ "" then "//" else "") ++ u.Host
        else ""
      let sep := if u.Path ≠ "" ∧ u.Path.toList.head? ≠ some slash ∧ u.Host ≠ "" then "/" else ""
      let guard :=
        if scheme = "" ∧ authority = "" ∧ sep = "" ∧
            (strings.Cut slash u.Path.toList).1.contains (Char.ofNat 0x3a) then "./" else ""
      authority ++ sep ++ guard ++ u.Path
  let query := if u.ForceQuery ∨ u.RawQuery ≠ "" then "?" ++ u.RawQuery else ""
  let fragment := if u.Fragment ≠ "" then "#" ++ u.Fragment else ""
  scheme ++ rest ++ query ++ fragment

end url

/-! ## `net/http` -/

namespace http

/-- Whether the byte may stand in an HTTP token (method, header name). -/
def isTokenByte (c : Char) : Bool :=
  strings.isLetter c || strings.isDigit c ||
    [0x21, 0x23, 0x24, 0x25, 0x26, 0x27, 0x2a, 0x2b, 0x2d, 0x2e, 0x5e, 0x5f, 0x60, 0x7c, 0x7e].contains c.toNat

/-- The letter-case pass of `CanonicalMIMEHeaderKey`: upper case at the
start and after each `-`, lower case elsewhere. -/
def canonicalBytes (upper : Bool) : List Char → List Char
  | [] => []
  | c :: cs =>
    let c' := if upper then strings.upperByte c else strings.lowerByte c
    c' :: canonicalBytes (c'.toNat = 0x2d) cs

/-- The function `textproto.CanonicalMIMEHeaderKey`: a key with a byte that
is not a token byte is returned as it is. -/
def CanonicalMIMEHeaderKey (key : String) : String :=
  if key.toList.all isTokenByte then String.mk (canonicalBytes true key.toList) else key

/-- The type `http.Header`, a `map[string][]string`. -/
abbrev Header := GoMap (List String)

/-- The method `Header.Add`: appends to the values of the canonical key. -/
def Header.Add (h : Header) (key value : String) : Header :=
  let k := CanonicalMIMEHeaderKey key
  GoMap.set h k ((GoMap.get h k).getD [] ++ [value])

/-- The method `Header.Del`: removes the canonical key. -/
def Header.Del (h : Header) (key : String) : Header :=
  GoMap.delete h (CanonicalMIMEHeaderKey key)

/-- The method `Header.Get`: the first value of the canonical key, or `""`. -/
def Header.Get (h : Header) (key : String) : String :=
  ((GoMap.get h (CanonicalMIMEHeaderKey key)).getD []).headD ""

/-- The fields of `http.Request` the package sets or reads.  `Body` is the
text the request carries, `none` when there is no body. -/
structure Request where
  Method : String
  URL : url.URL
  Header : Header
  Body : Option String
  Host : String
  deriving DecidableEq, Repr

/-- The fields of `http.Response` the package reads: the status code and
the body, as the JSON decoder finds it. -/
structure Response where
  StatusCode : Int
  Body : json.Stream

/-- The function `removeEmptyPort`: a host ending in `:`, with that colon
after the last `]`, loses it. -/
def removeEmptyPort (host : String) : String :=
  if host.toList.getLast? = some (Char.ofNat 0x3a) ∧
      (strings.Cut (Char.ofNat 0x5d) host.toList.reverse).1.contains (Char.ofNat 0x3a) then
    String.mk host.toList.dropLast
  else host

/-- The function `http.NewRequest(method, url, body)`: an empty method
means GET, the method has to be a token, the URL has to parse; the request
starts with an empty header. -/
def NewRequest (method rawURL : String) (body : Option String) : Except String Request :=
  let method := if method = "" then "GET" else method
  if ¬ method.toList.all isTokenByte then .error ("net/http: invalid method " ++ method)
  else
    match url.Parse rawURL with
    | .error err => .error err
    | .ok u =>
      let u := { u with Host := removeEmptyPort u.Host }
      .ok { Method := method, URL := u, Header := [], Body := body, Host := u.Host }

/-- The embedded `*http.Client`, reduced to its method `Do`: one call sends
one request and yields a response or the error of the send (a `*url.Error`,
held as its text), and moves the outside world from one state to the next. -/
abbrev Client (σ : Type) := Request → σ → Except String Response × σ

end http

/-! ## `fmt` -/

namespace fmt

/-- An operand of `Sprintf`: a string or an integer. -/
inductive Arg where
  | str (s : String)
  | int (n : Int)
  deriving DecidableEq, Repr

/-- How a misused operand is shown, as `type=value`. -/
def Arg.show : Arg → String
  | .str s => "string=" ++ s
  | .int n => "int=" ++ strconv.FormatInt n

/-- The pieces `Sprintf` writes for a format with the verbs `%s`, `%d` and
`%%`; other text, a `%` before another byte included, is copied.  A verb
without operand writes `%!verb(MISSING)`, a verb with an operand of the
other type `%!verb(type=value)`. -/
def pieces : List Char → List Arg → List String
  | [], [] => []
  | [], a :: as => ["%!(EXTRA " ++ String.intercalate ", " ((a :: as).map Arg.show) ++ ")"]
  | c :: rest, args =>
    if c.toNat = 0x25 then
      match rest, args with
      | [], _ => ["%!(NOVERB)"]
      | v :: rest', [] =>
        if v.toNat = 0x25 then "%" :: pieces rest' []
        else if v.toNat = 0x73 ∨ v.toNat = 0x64 then ("%!" ++ String.singleton v ++ "(MISSING)") :: pieces rest' []
        else "%" :: String.singleton v :: pieces rest' []
      | v :: rest', a :: as =>
        if v.toNat = 0x25 then "%" :: pieces rest' (a :: as)
        else if v.toNat = 0x73 then
          match a with
          | .str s => s :: pieces rest' as
          | other => ("%!s(" ++ other.show ++ ")") :: pieces rest' as
        else if v.toNat = 0x64 then
          match a with
          | .int n => strconv.FormatInt n :: pieces rest' as
          | other => ("%!d(" ++ other.show ++ ")") :: pieces rest' as
        else "%" :: String.singleton v :: pieces rest' (a :: as)
    else String.singleton c :: pieces rest args

/-- The function `fmt.Sprintf`, for the verbs `%s` and `%d`. -/
def Sprintf (format : String) (args : List Arg) : String :=
  String.join (pieces format.toList args)

end fmt

namespace agologo

/-! ## `error.go` -/

/-- The struct `type Error struct`, the error payload of the API. -/
structure Error where
  StatusCode : Int
  Message : String
  deriving DecidableEq, Repr

/-- The zero value `Error{}`. -/
def Error.zero : agologo.Error :=
  { StatusCode := 0, Message := "" }

/-- The method `(*Error).Error`: `fmt.Sprintf("%s (%d)", de.Message, de.StatusCode)`. -/
def Error.Error (de : agologo.Error) : String :=
  fmt.Sprintf "%s (%d)" [.str de.Message, .int de.StatusCode]

/-- The fields of `Error` for `encoding/json`, by their tags. -/
def Error.fields : List (json.Field agologo.Error) :=
  [ { name := "statusCode"
      decode := fun v t => let r := json.decInt "int" v t.StatusCode; ({ t with StatusCode := r.1 }, r.2) },
    { name := "message"
      decode := fun v t => let r := json.decString v t.Message; ({ t with Message := r.1 }, r.2) } ]

/-- Decoding a JSON value into an `Error`. -/
def Error.decoder : json.Decoder agologo.Error :=
  json.decStruct "agologo.Error" Error.fields

/-- A Go `error` value as it leaves the package. -/
inductive GoError where
  /-- A `*Error` of this package. -/
  | api (e : Error)
  /-- The error of the HTTP send, as `http.Client.Do` returned it. -/
  | send (err : String)
  /-- An error of `encoding/json`. -/
  | json (e : json.Error)
  /-- An error of `net/url` or `net/http` while the request is built, held as
  the cause it reports. -/
  | build (err : String)
  deriving DecidableEq, Repr

/-- The method `Error()` of a Go `error` value, where the model holds its
text: for a `*Error` of this package and for the error of the HTTP send.
The text of an `encoding/json` error (it names the struct field) and of a
`net/url` or `net/http` error (it quotes the URL or the method) is not
modelled, `none` stands for it. -/
def GoError.Error : GoError → Option String
  | .api e => some e.Error
  | .send err => some err
  | .json _ => none
  | .build _ => none

/-! ## The result type (`client.go`, lines 17-32) -/

/-- The anonymous struct of the field `Metadata`. -/
structure Metadata where
  Icon : json.Value
  Origin : String
  Source : String
  Url : String
  deriving Repr

/-- The anonymous struct of the elements of `Summary`. -/
structure SummaryEntry where
  Metadata : Metadata
  Quotes : Slice json.Value
  Ranks : Slice Int
  Sentences : Slice String
  deriving Repr

/-- The struct `type Result struct`. -/
structure Result where
  Photos : Slice String
  Summary : Slice SummaryEntry
  Title : String
  TitleCandidates : Slice json.Value
  deriving Repr

/-- The name `reflect` gives the anonymous struct type of `Metadata`. -/
def Metadata.goType : String :=
  "struct \x7b Icon interface \x7b\x7d \"json:\\\"icon\\\"\"; Origin string \"json:\\\"origin\\\"\"; " ++
    "Source string \"json:\\\"source\\\"\"; Url string \"json:\\\"url\\\"\" \x7d"

/-- The name `reflect` gives the anonymous struct type of the elements of `Summary`. -/
def SummaryEntry.goType : String :=
  "struct \x7b Metadata " ++ Metadata.goType ++ " \"json:\\\"metadata\\\"\"; " ++
    "Quotes []interface \x7b\x7d \"json:\\\"quotes\\\"\"; Ranks []int64 \"json:\\\"ranks\\\"\"; " ++
    "Sentences []string \"json:\\\"sentences\\\"\" \x7d"

/-- The zero value of the `Metadata` struct. -/
def Metadata.zero : Metadata :=
  { Icon := .null, Origin := "", Source := "", Url := "" }

/-- The zero value of an element of `Summary`. -/
def SummaryEntry.zero : SummaryEntry :=
  { Metadata := Metadata.zero, Quotes := none, Ranks := none, Sentences := none }

/-- The zero value `Result{}`. -/
def Result.zero : Result :=
  { Photos := none, Summary := none, Title := "", TitleCandidates := none }

/-- The fields of the `Metadata` struct for `encoding/json`. -/
def Metadata.fields : List (json.Field Metadata) :=
  [ { name := "icon"
      decode := fun v t => let r := json.decAny v t.Icon; ({ t with Icon := r.1 }, r.2) },
    { name := "origin"
      decode := fun v t => let r := json.decString v t.Origin; ({ t with Origin := r.1 }, r.2) },
    { name := "source"
      decode := fun v t => let r := json.decString v t.Source; ({ t with Source := r.1 }, r.2) },
    { name := "url"
      decode := fun v t => let r := json.decString v t.Url; ({ t with Url := r.1 }, r.2) } ]

/-- Decoding a JSON value into a `Metadata` struct. -/
def Metadata.decoder : json.Decoder Metadata :=
  json.decStruct Metadata.goType Metadata.fields

/-- The fields of an element of `Summary` for `encoding/json`. -/
def SummaryEntry.fields : List (json.Field SummaryEntry) :=
  [ { name := "metadata"
      decode := fun v t => let r := Metadata.decoder v t.Metadata; ({ t with Metadata := r.1 }, r.2) },
    { name := "quotes"
      decode := fun v t =>
        let r := json.decSlice "[]interface {}" .null json.decAny v t.Quotes; ({ t with Quotes := r.1 }, r.2) },
    { name := "ranks"
      decode := fun v t =>
        let r := json.decSlice "[]int64" 0 (json.decInt "int64") v t.Ranks; ({ t with Ranks := r.1 }, r.2) },
    { name := "sentences"
      decode := fun v t =>
        let r := json.decSlice "[]string" "" json.decString v t.Sentences; ({ t with Sentences := r.1 }, r.2) } ]

/-- Decoding a JSON value into an element of `Summary`. -/
def SummaryEntry.decoder : json.Decoder SummaryEntry :=
  json.decStruct SummaryEntry.goType SummaryEntry.fields

/-- The fields of `Result` for `encoding/json`, by their tags. -/
def Result.fields : List (json.Field Result) :=
  [ { name := "photos"
      decode := fun v t =>
        let r := json.decSlice "[]string" "" json.decString v t.Photos; ({ t with Photos := r.1 }, r.2) },
    { name := "summary"
      decode := fun v t =>
        let r := json.decSlice ("[]" ++ SummaryEntry.goType) SummaryEntry.zero SummaryEntry.decoder v t.Summary
        ({ t with Summary := r.1 }, r.2) },
    { name := "title"
      decode := fun v t => let r := json.decString v t.Title; ({ t with Title := r.1 }, r.2) },
    { name := "title_candidates"
      decode := fun v t =>
        let r := json.decSlice "[]interface {}" .null json.decAny v t.TitleCandidates
        ({ t with TitleCandidates := r.1 }, r.2) } ]

/-- Decoding a JSON value into a `Result`. -/
def Result.decoder : json.Decoder Result :=
  json.decStruct "agologo.Result" Result.fields

/-! ## Request builder (`client.go`, lines 34-98) -/

/-- The in-progress article `map[string]interface{}`.  The three option
constructors of the package store strings only, so the values are strings. -/
abbrev ArticleMap := GoMap String

/-- The Go type `ArticleOption func(map[string]interface{})`: the effect of the
function on the map it is given. -/
abbrev ArticleOption := ArticleMap → ArticleMap

/-- The option `Title(title)`: `v["title"] = title`. -/
def Title (title : String) : ArticleOption :=
  fun v => GoMap.set v "title" title

/-- The option `Text(text)`: `v["text"] = text`. -/
def Text (text : String) : ArticleOption :=
  fun v => GoMap.set v "text" text

/-- The option `URL(url)`: `v["url"] = url`. -/
def URL (url : String) : ArticleOption :=
  fun v => GoMap.set v "url" url

/-- The request payload `type Summarize struct`, fields in declaration order. -/
structure Summarize where
  Articles : Slice ArticleMap
  Coref : Bool
  IncludeAllSentences : Bool
  SortBySalience : Bool
  SummaryLength : Int
  deriving DecidableEq, Repr

/-- The Go type `SummarizeOption func(*Summarize)`: the effect of the function
on the payload behind the pointer. -/
abbrev SummarizeOption := Summarize → Summarize

/-- The loop `for _, fn := range options { fn(a) }` over a fresh map `a`. -/
def buildArticle (options : List ArticleOption) : ArticleMap :=
  options.foldl (fun a fn => fn a) []

/-- The option `Article(options...)`: builds a fresh map, runs the article
options on it in order and appends it to `s.Articles`. -/
def Article (options : List ArticleOption) : SummarizeOption :=
  fun s => { s with Articles := Slice.append s.Articles (buildArticle options) }

/-- The option `Coref()`: `s.Coref = true`. -/
def Coref : SummarizeOption :=
  fun s => { s with Coref := true }

/-- The option `SortBySalience()`: `s.SortBySalience = true`. -/
def SortBySalience : SummarizeOption :=
  fun s => { s with SortBySalience := true }

/-- The option `IncludeAllSentences()`: `s.IncludeAllSentences = true`. -/
def IncludeAllSentences : SummarizeOption :=
  fun s => { s with IncludeAllSentences := true }

/-- The option `SummaryLength(v)`: `s.SummaryLength = int64(v)`.  Every Go
`int` is an `int64` value, so the conversion keeps the number. -/
def SummaryLength (v : Int) : SummarizeOption :=
  fun s => { s with SummaryLength := v }

/-- The composite literal at the head of `client.Summarize` (lines 101-107). -/
def defaultInput : Summarize :=
  { SummaryLength := 1
    Articles := some []
    Coref := false
    SortBySalience := false
    IncludeAllSentences := false }

/-- The loop `for _, fn := range options { fn(&input) }` (lines 109-111). -/
def applyOptions (options : List SummarizeOption) (input : Summarize) : Summarize :=
  options.foldl (fun s fn => fn s) input

/-- The payload `client.Summarize` hands to `NewRequest`. -/
def payload (options : List SummarizeOption) : Summarize :=
  applyOptions options defaultInput

/-- A call of one of the three article option constructors. -/
inductive ArticleCall where
  | title (arg : String)
  | text (arg : String)
  | url (arg : String)
  deriving DecidableEq, Repr

/-- The option a constructor call returns. -/
def ArticleCall.option : ArticleCall → ArticleOption
  | .title s => Title s
  | .text s => Text s
  | .url s => URL s

/-- The key an article option writes. -/
def ArticleCall.key : ArticleCall → String
  | .title _ => "title"
  | .text _ => "text"
  | .url _ => "url"

/-- The argument an article option was built with. -/
def ArticleCall.arg : ArticleCall → String
  | .title s => s
  | .text s => s
  | .url s => s

/-- The argument of the last call in the list that writes key `k`. -/
def lastArg (k : String) (calls : List ArticleCall) : Option String :=
  ((calls.filter (fun c => decide (c.key = k))).map ArticleCall.arg).getLast?

/-- A call of one of the five summarize option constructors. -/
inductive OptionCall where
  | article (options : List ArticleOption)
  | coref
  | sortBySalience
  | includeAllSentences
  | summaryLength (v : Int)

/-- The option a constructor call returns. -/
def OptionCall.option : OptionCall → SummarizeOption
  | .article options => Article options
  | .coref => Coref
  | .sortBySalience => SortBySalience
  | .includeAllSentences => IncludeAllSentences
  | .summaryLength v => SummaryLength v

/-- The payload built from a list of constructor calls. -/
def payloadOf (calls : List OptionCall) : Summarize :=
  payload (calls.map OptionCall.option)

/-- Whether a call is `Coref()`. -/
def OptionCall.isCoref : OptionCall → Bool
  | .coref => true
  | _ => false

/-- Whether a call is `SortBySalience()`. -/
def OptionCall.isSortBySalience : OptionCall → Bool
  | .sortBySalience => true
  | _ => false

/-- Whether a call is `IncludeAllSentences()`. -/
def OptionCall.isIncludeAllSentences : OptionCall → Bool
  | .includeAllSentences => true
  | _ => false

/-- The argument of a `SummaryLength` call. -/
def OptionCall.length? : OptionCall → Option Int
  | .summaryLength v => some v
  | _ => none

/-- The article options of an `Article` call. -/
def OptionCall.article? : OptionCall → Option (List ArticleOption)
  | .article options => some options
  | _ => none

/-! ## Transport (`client.go`, lines 100-205) -/

/-- The JSON text `encoding/json` writes for a `Summarize` value: the fields
in declaration order under their tag names. -/
def Summarize.Marshal (s : Summarize) : String :=
  "\x7b" ++ "\"articles\":" ++ json.array s.Articles ++
    ",\"coref\":" ++ json.bool s.Coref ++
    ",\"include_all_sentences\":" ++ json.bool s.IncludeAllSentences ++
    ",\"sort_by_salience\":" ++ json.bool s.SortBySalience ++
    ",\"summary_length\":" ++ strconv.FormatInt s.SummaryLength ++ "\x7d"

/-- What `json.NewEncoder(buf).Encode(body)` leaves in `buf`: the JSON text
followed by a newline. -/
def Summarize.Encode (s : Summarize) : String :=
  s.Marshal ++ "\n"

/-- The struct `type client struct`: the embedded HTTP client, the base URL
and the token. -/
structure client (σ : Type) where
  Client : http.Client σ
  baseURL : url.URL
  token : String

/-- The method `(*client).NewRequest(method, urlStr, body)`.  The body is
`nil` or a `Summarize` value, the one type the package passes; encoding it
cannot fail. -/
def client.NewRequest {σ : Type} (c : client σ) (method urlStr : String) (body : Option Summarize) :
    Except GoError http.Request :=
  match url.Parse urlStr with
  | .error err => .error (.build err)
  | .ok rel =>
    let u := c.baseURL.ResolveReference rel
    let buf := body.map Summarize.Encode
    match http.NewRequest method u.String buf with
    | .error err => .error (.build err)
    | .ok req =>
      let req := { req with Header := req.Header.Add "Content-Type" "application/json" }
      let req := { req with Header := req.Header.Add "Ocp-Apim-Subscription-Key" c.token }
      .ok req

/-- The function `New(token)`.  `http.DefaultClient` is a parameter. -/
def New {σ : Type} (DefaultClient : http.Client σ) (token : String) : Except GoError (client σ) :=
  match url.Parse "https://api.agolo.com" with
  | .error err => .error (.build err)
  | .ok baseURL => .ok { token := token, baseURL := baseURL, Client := DefaultClient }

/-- The request `Do` hands to the HTTP client: `req.Header.Del("Accept-Encoding")`. -/
def sentRequest (req : http.Request) : http.Request :=
  { req with Header := req.Header.Del "Accept-Encoding" }

/-- The method `(*client).Do(req, v)` for `v` a `*Result`: the returned
error (`none` is nil), the content of `*v` after the call, and the next
state of the world.  The dump of the request to standard output changes
neither the request nor the outcome and is left out. -/
def client.Do {σ : Type} (wd : client σ) (req : http.Request) (v : Result) (s : σ) :
    (Option GoError × Result) × σ :=
  match wd.Client (sentRequest req) s with
  | (.error err, s') => ((some (.send err), v), s')
  | (.ok resp, s') =>
    if resp.StatusCode ≠ 200 then
      let err := (json.Decode Error.decoder resp.Body Error.zero).1
      ((some (.api err), v), s')
    else
      match json.Decode Result.decoder resp.Body v with
      | (v', some err) => ((some (.json err), v'), s')
      | (v', none) => ((none, v'), s')

/-- The method `(*client).Summarize(options...)`: `.ok output` is the
return `(&output, nil)`, `.error err` the return `(nil, err)`. -/
def client.Summarize {σ : Type} (c : client σ) (options : List SummarizeOption) (s : σ) :
    Except GoError Result × σ :=
  let input := applyOptions options defaultInput
  match c.NewRequest "POST" "/nlp/v0.2/summarize" (some input) with
  | .error err => (.error err, s)
  | .ok request =>
    match c.Do request Result.zero s with
    | ((some err, _), s') => (.error err, s')
    | ((none, output), s') => (.ok output, s')

/-- An HTTP client that answers every request with the same outcome and
counts the requests it is sent. -/
def fixedClient (outcome : Except String http.Response) : http.Client Nat :=
  fun _ n => (outcome, n + 1)

/-- An HTTP client that answers like `inner` and records the requests it is sent. -/
def recording {σ : Type} (inner : http.Client σ) : http.Client (σ × List http.Request) :=
  fun req s => ((inner req s.1).1, ((inner req s.1).2, s.2 ++ [req]))

/-- The call `New(token)` followed by `Summarize(options...)` on the client
it returns, as a user of the package writes it. -/
def summarizeWith {σ : Type} (DefaultClient : http.Client σ) (token : String)
    (calls : List OptionCall) (s : σ) : Except GoError Result × σ :=
  match New DefaultClient token with
  | .error err => (.error err, s)
  | .ok c => c.Summarize (calls.map OptionCall.option) s

/-- The requests that reach the HTTP client during one call of `Summarize`
on a client made by `New(token)`, in the order they are sent. -/
def requestsSent {σ : Type} (inner : http.Client σ) (token : String) (calls : List OptionCall) (s : σ) :
    List http.Request :=
  match New (recording inner) token with
  | .error _ => []
  | .ok c => (c.Summarize (calls.map OptionCall.option) (s, [])).2.2

/-! ## Success bodies

JSON values whose members carry the names of the `json` tags of `Result`. -/

/-- The content of one entry of `summary` in a success body. -/
structure EntryData where
  icon : json.Value
  origin : String
  source : String
  url : String
  quotes : List json.Value
  ranks : List Int
  sentences : List String

/-- An entry of `summary` as a JSON object: `metadata` (`icon`, `origin`,
`source`, `url`), `quotes`, `ranks`, `sentences`. -/
def EntryData.toJSON (e : EntryData) : json.Value :=
  .obj [ ("metadata", .obj [("icon", e.icon), ("origin", .str e.origin),
                             ("source", .str e.source), ("url", .str e.url)]),
         ("quotes", .arr e.quotes),
         ("ranks", .arr (e.ranks.map (fun n => .num (.int n)))),
         ("sentences", .arr (e.sentences.map .str)) ]

/-- A success body as a JSON object: `photos`, `summary`, `title`, `title_candidates`. -/
def successJSON (photos : List String) (summary : List EntryData) (title : String)
    (candidates : List json.Value) : json.Value :=
  .obj [ ("photos", .arr (photos.map .str)),
         ("summary", .arr (summary.map EntryData.toJSON)),
         ("title", .str title),
         ("title_candidates", .arr candidates) ]

/-- The value `v` is an entry of `summary` with the content `e`: an object
with the members `metadata`, `quotes`, `ranks` and `sentences`, each once
and in any order, where `metadata` is an object with the members `icon`,
`origin`, `source` and `url`, each once and in any order. -/
def EntryData.describes (e : EntryData) (v : json.Value) : Prop :=
  ∃ members md, v = .obj members ∧
    members.Perm [ ("metadata", .obj md), ("quotes", .arr e.quotes),
                   ("ranks", .arr (e.ranks.map (fun n => .num (.int n)))),
                   ("sentences", .arr (e.sentences.map .str)) ] ∧
    md.Perm [("icon", e.icon), ("origin", .str e.origin), ("source", .str e.source),
             ("url", .str e.url)]

/-- The value `v` is a success body with the given content: an object with
the members `photos`, `summary`, `title` and `title_candidates`, each once
and in any order, the elements of `summary` being entries as above. -/
def SuccessBody (photos : List String) (summary : List EntryData) (title : String)
    (candidates : List json.Value) (v : json.Value) : Prop :=
  ∃ members entries, v = .obj members ∧
    members.Perm [ ("photos", .arr (photos.map .str)), ("summary", .arr entries),
                   ("title", .str title), ("title_candidates", .arr candidates) ] ∧
    List.Forall₂ EntryData.describes summary entries

/-- The entry of `Result.Summary` that holds the content of an entry of the body. -/
def EntryData.toEntry (e : EntryData) : SummaryEntry :=
  { Metadata := { Icon := e.icon.toInterface, Origin := e.origin, Source := e.source, Url := e.url }
    Quotes := some (e.quotes.map json.Value.toInterface)
    Ranks := some e.ranks
    Sentences := some e.sentences }

/-- An entry a Go program can hold: the ranks are int64 values and the
numbers inside the untyped values are float64 values. -/
def EntryData.representable (e : EntryData) : Prop :=
  e.icon.firstBad = none ∧ (∀ q ∈ e.quotes, q.firstBad = none) ∧
    ∀ n ∈ e.ranks, -(2 ^ 63) ≤ n ∧ n < 2 ^ 63

end agologo

/-! # Theorems -/

/-! ## Maps -/

namespace GoMap

theorem get_delete {α : Type} (m : GoMap α) (k k' : String) :
    get (delete m k) k' = if k = k' then none else get m k' := by
  induction m with
  | nil => simp [delete, get]
  | cons p rest ih =>
    obtain ⟨a, v⟩ := p
    have ih' : get (List.filter (fun p => decide (p.1 ≠ k)) rest) k' =
        if k = k' then none else get rest k' := ih
    by_cases h1 : a = k <;> by_cases h2 : a = k' <;> by_cases h3 : k = k' <;>
      simp_all [delete, List.filter_cons, get]

theorem get_set {α : Type} (m : GoMap α) (k k' : String) (v : α) :
    get (set m k v) k' = if k = k' then some v else get m k' := by
  by_cases h : k = k'
  · simp [set, get, h]
  · simp [set, get, h, get_delete]

end GoMap

namespace agologo

/-! ## Request builder -/

theorem ArticleCall.get_option (c : ArticleCall) (m : ArticleMap) (k : String) :
    GoMap.get (c.option m) k = if c.key = k then some c.arg else GoMap.get m k := by
  cases c <;> simp [ArticleCall.option, ArticleCall.key, ArticleCall.arg, Title, Text, URL, GoMap.get_set]

theorem lastArg_cons (k : String) (c : ArticleCall) (cs : List ArticleCall) :
    lastArg k (c :: cs) =
      if c.key = k then some ((lastArg k cs).getD c.arg) else lastArg k cs := by
  by_cases h : c.key = k
  · simp [lastArg, List.filter, h, List.getLast?_cons]
  · simp [lastArg, List.filter, h]

theorem get_foldl_options (calls : List ArticleCall) (init : ArticleMap) (k : String) :
    GoMap.get ((calls.map ArticleCall.option).foldl (fun a fn => fn a) init) k =
      (match lastArg k calls with
       | some v => some v
       | none => GoMap.get init k) := by
  induction calls generalizing init with
  | nil => simp [lastArg]
  | cons c cs ih =>
    simp only [List.map_cons, List.foldl_cons, ih, lastArg_cons, ArticleCall.get_option]
    by_cases h : c.key = k
    · cases hl : lastArg k cs <;> simp [h]
    · cases hl : lastArg k cs <;> simp [h]

theorem lastArg_isSome (k : String) (calls : List ArticleCall) :
    (lastArg k calls).isSome ↔ ∃ c ∈ calls, c.key = k := by
  induction calls with
  | nil => simp [lastArg]
  | cons c cs ih =>
    rw [lastArg_cons]
    by_cases h : c.key = k
    · simp [h]
    · simp [h, ih]

/-- C2: for every list of calls of `Title`, `Text` and `URL`, the mapping
`Article` assembles holds under each key the argument of the last call that
writes that key; `title`, `text`, `url` are present exactly when a call of
`Title`, `Text`, `URL` is in the list; no other key is present. -/
theorem Article_last_write_wins (calls : List ArticleCall) :
    (∀ k, GoMap.get (buildArticle (calls.map ArticleCall.option)) k = lastArg k calls) ∧
    ((GoMap.get (buildArticle (calls.map ArticleCall.option)) "title").isSome ↔
      ∃ s, ArticleCall.title s ∈ calls) ∧
    ((GoMap.get (buildArticle (calls.map ArticleCall.option)) "text").isSome ↔
      ∃ s, ArticleCall.text s ∈ calls) ∧
    ((GoMap.get (buildArticle (calls.map ArticleCall.option)) "url").isSome ↔
      ∃ s, ArticleCall.url s ∈ calls) ∧
    (∀ k, (GoMap.get (buildArticle (calls.map ArticleCall.option)) k).isSome →
      k = "title" ∨ k = "text" ∨ k = "url") ∧
    (∀ s : Summarize, (Article (calls.map ArticleCall.option) s).Articles =
      some (Slice.elems s.Articles ++ [buildArticle (calls.map ArticleCall.option)])) := by
  have hget : ∀ k, GoMap.get (buildArticle (calls.map ArticleCall.option)) k = lastArg k calls := by
    intro k
    unfold buildArticle
    rw [get_foldl_options]
    cases lastArg k calls <;> simp [GoMap.get]
  refine ⟨hget, ?_, ?_, ?_, ?_, ?_⟩
  · rw [hget, lastArg_isSome]
    constructor
    · rintro ⟨c, hc, hk⟩
      cases c with
      | title s => exact ⟨s, hc⟩
      | text s => exact absurd hk (by simp [ArticleCall.key])
      | url s => exact absurd hk (by simp [ArticleCall.key])
    · rintro ⟨s, hs⟩
      exact ⟨_, hs, rfl⟩
  · rw [hget, lastArg_isSome]
    constructor
    · rintro ⟨c, hc, hk⟩
      cases c with
      | title s => exact absurd hk (by simp [ArticleCall.key])
      | text s => exact ⟨s, hc⟩
      | url s => exact absurd hk (by simp [ArticleCall.key])
    · rintro ⟨s, hs⟩
      exact ⟨_, hs, rfl⟩
  · rw [hget, lastArg_isSome]
    constructor
    · rintro ⟨c, hc, hk⟩
      cases c with
      | title s => exact absurd hk (by simp [ArticleCall.key])
      | text s => exact absurd hk (by simp [ArticleCall.key])
      | url s => exact ⟨s, hc⟩
    · rintro ⟨s, hs⟩
      exact ⟨_, hs, rfl⟩
  · intro k hk
    rw [hget, lastArg_isSome] at hk
    obtain ⟨c, _, hc⟩ := hk
    cases c with
    | title s => exact Or.inl hc.symm
    | text s => exact Or.inr (Or.inl hc.symm)
    | url s => exact Or.inr (Or.inr hc.symm)
  · intro s
    rfl

end agologo

namespace agologo

theorem applyOptions_cons (fn : SummarizeOption) (fns : List SummarizeOption) (s : Summarize) :
    applyOptions (fn :: fns) s = applyOptions fns (fn s) := rfl

theorem applyOptions_append (fns gns : List SummarizeOption) (s : Summarize) :
    applyOptions (fns ++ gns) s = applyOptions gns (applyOptions fns s) := by
  simp [applyOptions, List.foldl_append]

theorem SummaryLength_applyOptions (calls : List OptionCall) (s : Summarize) :
    (applyOptions (calls.map OptionCall.option) s).SummaryLength =
      ((calls.filterMap OptionCall.length?).getLast?).getD s.SummaryLength := by
  induction calls generalizing s with
  | nil => simp [applyOptions]
  | cons c cs ih =>
    rw [List.map_cons, applyOptions_cons, ih]
    cases c <;>
      simp [OptionCall.option, OptionCall.length?, Article, Coref, SortBySalience,
        IncludeAllSentences, SummaryLength, List.getLast?_cons]

/-- C8: the payload's `summary_length` is the argument of the last
`SummaryLength` call of the list, and 1 when the list has none; the argument
is stored as it is, zero and negative numbers included. -/
theorem SummaryLength_last_wins (calls : List OptionCall) :
    (payloadOf calls).SummaryLength = ((calls.filterMap OptionCall.length?).getLast?).getD 1 ∧
    (∀ (v : Int) (s : Summarize), (SummaryLength v s).SummaryLength = v) ∧
    (payloadOf [.summaryLength 5, .summaryLength 3]).SummaryLength = 3 ∧
    (payloadOf [.summaryLength (-2)]).SummaryLength = -2 ∧
    (payloadOf [.summaryLength 0]).SummaryLength = 0 ∧
    (payloadOf [.summaryLength (-2)]).Marshal =
      "\x7b\"articles\":[],\"coref\":false,\"include_all_sentences\":false,\"sort_by_salience\":false,\"summary_length\":-2\x7d" := by
  refine ⟨?_, fun _ _ => rfl, rfl, rfl, rfl, by decide⟩
  simp [payloadOf, payload, SummaryLength_applyOptions, defaultInput]

theorem Articles_applyOptions (calls : List OptionCall) (s : Summarize) :
    Slice.elems (applyOptions (calls.map OptionCall.option) s).Articles =
      Slice.elems s.Articles ++ (calls.filterMap OptionCall.article?).map buildArticle := by
  induction calls generalizing s with
  | nil => simp [applyOptions]
  | cons c cs ih =>
    rw [List.map_cons, applyOptions_cons, ih]
    cases c <;>
      simp [OptionCall.option, OptionCall.article?, Article, Coref, SortBySalience,
        IncludeAllSentences, SummaryLength, Slice.append, Slice.elems]

theorem Articles_applyOptions_ne_none (calls : List OptionCall) (s : Summarize)
    (h : s.Articles ≠ none) :
    (applyOptions (calls.map OptionCall.option) s).Articles ≠ none := by
  induction calls generalizing s with
  | nil => simpa [applyOptions] using h
  | cons c cs ih =>
    rw [List.map_cons, applyOptions_cons]
    apply ih
    cases c <;>
      simp [OptionCall.option, Article, Coref, SortBySalience, IncludeAllSentences,
        SummaryLength, Slice.append, h]

/-- C9: `Article(options...)` appends one entry, the assembled mapping, at
the end of the article list and keeps the entries before it (and every other
field); with no options the entry is the empty mapping; so the payload has
one entry per `Article` call, in the order of the calls. -/
theorem Article_appends_one (calls : List OptionCall) :
    (∀ (options : List ArticleOption) (s : Summarize),
      (Article options s).Articles = some (Slice.elems s.Articles ++ [buildArticle options]) ∧
      (Article options s).Coref = s.Coref ∧
      (Article options s).IncludeAllSentences = s.IncludeAllSentences ∧
      (Article options s).SortBySalience = s.SortBySalience ∧
      (Article options s).SummaryLength = s.SummaryLength) ∧
    buildArticle [] = [] ∧
    (payloadOf calls).Articles = some ((calls.filterMap OptionCall.article?).map buildArticle) := by
  refine ⟨fun _ _ => ⟨rfl, rfl, rfl, rfl, rfl⟩, rfl, ?_⟩
  have h1 := Articles_applyOptions calls defaultInput
  have h2 := Articles_applyOptions_ne_none calls defaultInput (by simp [defaultInput])
  unfold payloadOf payload
  cases h : (applyOptions (calls.map OptionCall.option) defaultInput).Articles with
  | none => exact absurd h h2
  | some xs =>
    rw [h] at h1
    simpa [Slice.elems, defaultInput] using h1

theorem flags_applyOptions (calls : List OptionCall) (s : Summarize) :
    (applyOptions (calls.map OptionCall.option) s).Coref = (s.Coref || calls.any OptionCall.isCoref) ∧
    (applyOptions (calls.map OptionCall.option) s).SortBySalience =
      (s.SortBySalience || calls.any OptionCall.isSortBySalience) ∧
    (applyOptions (calls.map OptionCall.option) s).IncludeAllSentences =
      (s.IncludeAllSentences || calls.any OptionCall.isIncludeAllSentences) := by
  induction calls generalizing s with
  | nil => simp [applyOptions]
  | cons c cs ih =>
    rw [List.map_cons, applyOptions_cons]
    obtain ⟨h1, h2, h3⟩ := ih (c.option s)
    rw [h1, h2, h3]
    cases c <;>
      simp [OptionCall.option, OptionCall.isCoref, OptionCall.isSortBySalience,
        OptionCall.isIncludeAllSentences, Article, Coref, SortBySalience, IncludeAllSentences,
        SummaryLength]

theorem any_isCoref (calls : List OptionCall) :
    calls.any OptionCall.isCoref = true ↔ OptionCall.coref ∈ calls := by
  rw [List.any_eq_true]
  constructor
  · rintro ⟨c, hc, h⟩
    cases c <;> simp_all [OptionCall.isCoref]
  · intro h
    exact ⟨_, h, rfl⟩

theorem any_isSortBySalience (calls : List OptionCall) :
    calls.any OptionCall.isSortBySalience = true ↔ OptionCall.sortBySalience ∈ calls := by
  rw [List.any_eq_true]
  constructor
  · rintro ⟨c, hc, h⟩
    cases c <;> simp_all [OptionCall.isSortBySalience]
  · intro h
    exact ⟨_, h, rfl⟩

theorem any_isIncludeAllSentences (calls : List OptionCall) :
    calls.any OptionCall.isIncludeAllSentences = true ↔ OptionCall.includeAllSentences ∈ calls := by
  rw [List.any_eq_true]
  constructor
  · rintro ⟨c, hc, h⟩
    cases c <;> simp_all [OptionCall.isIncludeAllSentences]
  · intro h
    exact ⟨_, h, rfl⟩

/-- C10: `Coref()`, `SortBySalience()` and `IncludeAllSentences()` each set
their own flag to true and leave the other four fields as they are; a flag
of the final payload is true exactly when its option is in the list; no
option of the package turns a flag that is true back to false. -/
theorem flags_set_only_own (calls : List OptionCall) :
    (∀ s : Summarize,
      (Coref s).Coref = true ∧ (Coref s).SortBySalience = s.SortBySalience ∧
      (Coref s).IncludeAllSentences = s.IncludeAllSentences ∧
      (Coref s).SummaryLength = s.SummaryLength ∧ (Coref s).Articles = s.Articles) ∧
    (∀ s : Summarize,
      (SortBySalience s).SortBySalience = true ∧ (SortBySalience s).Coref = s.Coref ∧
      (SortBySalience s).IncludeAllSentences = s.IncludeAllSentences ∧
      (SortBySalience s).SummaryLength = s.SummaryLength ∧
      (SortBySalience s).Articles = s.Articles) ∧
    (∀ s : Summarize,
      (IncludeAllSentences s).IncludeAllSentences = true ∧
      (IncludeAllSentences s).Coref = s.Coref ∧
      (IncludeAllSentences s).SortBySalience = s.SortBySalience ∧
      (IncludeAllSentences s).SummaryLength = s.SummaryLength ∧
      (IncludeAllSentences s).Articles = s.Articles) ∧
    ((payloadOf calls).Coref = true ↔ OptionCall.coref ∈ calls) ∧
    ((payloadOf calls).SortBySalience = true ↔ OptionCall.sortBySalience ∈ calls) ∧
    ((payloadOf calls).IncludeAllSentences = true ↔ OptionCall.includeAllSentences ∈ calls) ∧
    (∀ (call : OptionCall) (s : Summarize),
      (s.Coref = true → (call.option s).Coref = true) ∧
      (s.SortBySalience = true → (call.option s).SortBySalience = true) ∧
      (s.IncludeAllSentences = true → (call.option s).IncludeAllSentences = true)) := by
  obtain ⟨h1, h2, h3⟩ := flags_applyOptions calls defaultInput
  refine ⟨fun _ => ⟨rfl, rfl, rfl, rfl, rfl⟩, fun _ => ⟨rfl, rfl, rfl, rfl, rfl⟩,
    fun _ => ⟨rfl, rfl, rfl, rfl, rfl⟩, ?_, ?_, ?_, ?_⟩
  · unfold payloadOf payload
    rw [h1, ← any_isCoref]
    simp [defaultInput]
  · unfold payloadOf payload
    rw [h2, ← any_isSortBySalience]
    simp [defaultInput]
  · unfold payloadOf payload
    rw [h3, ← any_isIncludeAllSentences]
    simp [defaultInput]
  · intro call s
    cases call <;>
      simp [OptionCall.option, Article, Coref, SortBySalience, IncludeAllSentences, SummaryLength]

end agologo

namespace strconv

theorem FormatInt_eq_toString (n : Int) : FormatInt n = toString n := by
  cases n with
  | ofNat m =>
    have h : ¬ (Int.ofNat m < 0) := by simp
    simp only [FormatInt, h, if_false]
    rfl
  | negSucc m =>
    have h : Int.negSucc m < 0 := Int.negSucc_lt_zero m
    simp only [FormatInt, h, if_true]
    rfl

end strconv

namespace agologo

theorem Error.Error_pieces (de : agologo.Error) :
    fmt.pieces "%s (%d)".toList [.str de.Message, .int de.StatusCode] =
      [de.Message, " ", "(", strconv.FormatInt de.StatusCode, ")"] := by
  rfl

/-- C4: `Error()` is the message, a space, and the status code in decimal
between parentheses; the error decoded from
`{"statusCode":429,"message":"rate limited"}` reads `rate limited (429)`. -/
theorem Error_format (de : agologo.Error) :
    de.Error = de.Message ++ " (" ++ toString de.StatusCode ++ ")" ∧
    (json.Decode Error.decoder
        (.value (.obj [("statusCode", .num (.int 429)), ("message", .str "rate limited")]))
        Error.zero).1.Error = "rate limited (429)" ∧
    (summarizeWith (fixedClient (.ok ⟨429, .value (.obj [("statusCode", .num (.int 429)),
        ("message", .str "rate limited")])⟩)) "token" [] 0).1.mapError GoError.Error =
      .error (some "rate limited (429)") := by
  refine ⟨?_, by decide, by rfl⟩
  unfold Error.Error fmt.Sprintf
  rw [Error.Error_pieces, strconv.FormatInt_eq_toString]
  simp [String.join, String.append_assoc]

end agologo

namespace agologo

/-! ## Transport -/

theorem New_eq {σ : Type} (dc : http.Client σ) (token : String) :
    New dc token = .ok { Client := dc,
                         baseURL := ⟨"https", "", "api.agolo.com", "", false, false, "", ""⟩,
                         token := token } := by
  rfl

theorem NewRequest_eq {σ : Type} (dc : http.Client σ) (token : String) (input : Summarize) :
    client.NewRequest
        { Client := dc,
          baseURL := ⟨"https", "", "api.agolo.com", "", false, false, "", ""⟩,
          token := token }
        "POST" "/nlp/v0.2/summarize" (some input) =
      .ok { Method := "POST",
            URL := ⟨"https", "", "api.agolo.com", "/nlp/v0.2/summarize", false, false, "", ""⟩,
            Header := [("Ocp-Apim-Subscription-Key", [token]), ("Content-Type", ["application/json"])],
            Body := some input.Encode,
            Host := "api.agolo.com" } := by
  rfl

theorem Summarize_eq_Do {σ : Type} (dc : http.Client σ) (token : String)
    (options : List SummarizeOption) (s : σ) :
    ∃ c req, New dc token = .ok c ∧ c.Client = dc ∧
      c.NewRequest "POST" "/nlp/v0.2/summarize" (some (payload options)) = .ok req ∧
      req.Method = "POST" ∧
      req.URL = ⟨"https", "", "api.agolo.com", "/nlp/v0.2/summarize", false, false, "", ""⟩ ∧
      req.Header = [("Ocp-Apim-Subscription-Key", [token]), ("Content-Type", ["application/json"])] ∧
      req.Body = some (payload options).Encode ∧
      c.Summarize options s =
        (match c.Do req Result.zero s with
         | ((some err, _), s') => (.error err, s')
         | ((none, output), s') => (.ok output, s')) := by
  refine ⟨_, _, New_eq dc token, rfl, NewRequest_eq dc token (payload options), rfl, rfl, rfl, rfl, ?_⟩
  show client.Summarize _ options s = _
  unfold client.Summarize
  have h := NewRequest_eq dc token (payload options)
  unfold payload at h
  simp only [h]
  rfl

theorem Do_send_error {σ : Type} (c : client σ) (req : http.Request) (v : Result) (s s' : σ)
    (err : String) (h : c.Client (sentRequest req) s = (.error err, s')) :
    c.Do req v s = ((some (.send err), v), s') := by
  unfold client.Do
  rw [h]

theorem Do_not_OK {σ : Type} (c : client σ) (req : http.Request) (v : Result) (s s' : σ)
    (resp : http.Response) (h : c.Client (sentRequest req) s = (.ok resp, s'))
    (hs : resp.StatusCode ≠ 200) :
    c.Do req v s = ((some (.api (json.Decode Error.decoder resp.Body Error.zero).1), v), s') := by
  unfold client.Do
  rw [h]
  simp [hs]

theorem Do_OK {σ : Type} (c : client σ) (req : http.Request) (v : Result) (s s' : σ)
    (resp : http.Response) (h : c.Client (sentRequest req) s = (.ok resp, s'))
    (hs : resp.StatusCode = 200) :
    c.Do req v s =
      ((((json.Decode Result.decoder resp.Body v).2).map GoError.json,
        (json.Decode Result.decoder resp.Body v).1), s') := by
  unfold client.Do
  rw [h]
  simp only [hs, ne_eq, not_true_eq_false, if_false]
  rcases hd : json.Decode Result.decoder resp.Body v with ⟨v', _ | e⟩ <;> simp

end agologo

namespace agologo

theorem Do_recording_state {σ : Type} (c : client (σ × List http.Request)) (inner : http.Client σ)
    (hc : c.Client = recording inner) (req : http.Request) (v : Result) (s : σ)
    (log : List http.Request) :
    (c.Do req v (s, log)).2 = ((inner (sentRequest req) s).2, log ++ [sentRequest req]) := by
  unfold client.Do
  rw [hc]
  simp only [recording]
  rcases inner (sentRequest req) s with ⟨_ | resp, s'⟩
  · rfl
  · by_cases hs : resp.StatusCode = 200
    · simp only [hs, ne_eq, not_true_eq_false, if_false]
      rcases json.Decode Result.decoder resp.Body v with ⟨v', _ | e⟩ <;> rfl
    · simp [hs]

theorem Summarize_state {σ : Type} (c : client σ) (req : http.Request)
    (options : List SummarizeOption) (s : σ)
    (h : c.Summarize options s =
      (match c.Do req Result.zero s with
       | ((some err, _), s') => (.error err, s')
       | ((none, output), s') => (.ok output, s'))) :
    (c.Summarize options s).2 = (c.Do req Result.zero s).2 := by
  rw [h]
  rcases c.Do req Result.zero s with ⟨⟨_ | e, out⟩, s'⟩ <;> rfl

theorem requestsSent_eq {σ : Type} (inner : http.Client σ) (token : String)
    (calls : List OptionCall) (s : σ) :
    requestsSent inner token calls s =
      [sentRequest
        { Method := "POST",
          URL := ⟨"https", "", "api.agolo.com", "/nlp/v0.2/summarize", false, false, "", ""⟩,
          Header := [("Ocp-Apim-Subscription-Key", [token]), ("Content-Type", ["application/json"])],
          Body := some (payloadOf calls).Encode,
          Host := "api.agolo.com" }] := by
  obtain ⟨c, req, hnew, hcl, hreq, -, -, -, -, hsum⟩ :=
    Summarize_eq_Do (recording inner) token (calls.map OptionCall.option) (s, [])
  have hreq' := hreq
  rw [New_eq] at hnew
  cases hnew
  rw [NewRequest_eq] at hreq'
  cases hreq'
  unfold requestsSent
  rw [New_eq]
  simp only
  rw [Summarize_state _ _ _ _ hsum, Do_recording_state _ inner rfl]
  rfl

/-- C7: for every token, `New(token)` returns no error, and the one request
`Summarize` sends through the client it returns has method POST, the URL
`https://api.agolo.com/nlp/v0.2/summarize` (the fixed path resolved against
the fixed origin), the header `Content-Type: application/json` and the
header `Ocp-Apim-Subscription-Key` equal to the token. -/
theorem Summarize_request_shape {σ : Type} (inner : http.Client σ) (token : String)
    (calls : List OptionCall) (s : σ) :
    (∃ c, New inner token = .ok c ∧ c.token = token ∧
      ∃ built, c.NewRequest "POST" "/nlp/v0.2/summarize" (some (payloadOf calls)) = .ok built ∧
        built.Method = "POST" ∧
        built.URL.String = "https://api.agolo.com/nlp/v0.2/summarize" ∧
        built.Header.Get "Content-Type" = "application/json" ∧
        built.Header.Get "Ocp-Apim-Subscription-Key" = token) ∧
    ∃ req, requestsSent inner token calls s = [req] ∧
      req.Method = "POST" ∧
      req.URL.String = "https://api.agolo.com/nlp/v0.2/summarize" ∧
      (∃ base rel, url.Parse "https://api.agolo.com" = .ok base ∧
        url.Parse "/nlp/v0.2/summarize" = .ok rel ∧ req.URL = base.ResolveReference rel) ∧
      req.Header.Get "Content-Type" = "application/json" ∧
      req.Header.Get "Ocp-Apim-Subscription-Key" = token := by
  refine ⟨⟨_, New_eq inner token, rfl, _, NewRequest_eq inner token (payloadOf calls),
    rfl, by rfl, by rfl, by rfl⟩, _, requestsSent_eq inner token calls s, rfl, by rfl,
    ⟨_, _, by rfl, by rfl, by rfl⟩, by rfl, by rfl⟩

end agologo

namespace agologo

/-- C1, as stated, fails: the body of the request `Summarize()` sends is not
the bare JSON text, `Encode` ends it with a newline. -/
theorem default_body_not_bare_text :
    (requestsSent (fixedClient (.error "connection refused")) "token" [] 0).map http.Request.Body ≠
      [some "\x7b\"articles\":[],\"coref\":false,\"include_all_sentences\":false,\"sort_by_salience\":false,\"summary_length\":1\x7d"] := by
  rw [requestsSent_eq]
  decide

/-- C1, amended: with no options the payload has an empty, non-nil article
list, the three flags false and `summary_length` 1; its JSON text is exactly
`{"articles":[],"coref":false,"include_all_sentences":false,"sort_by_salience":false,"summary_length":1}`;
the body of the request is that text followed by one newline. -/
theorem default_payload {σ : Type} (inner : http.Client σ) (token : String) (s : σ) :
    payload [] = { Articles := some [], Coref := false, IncludeAllSentences := false,
                   SortBySalience := false, SummaryLength := 1 } ∧
    (payload []).Marshal =
      "\x7b\"articles\":[],\"coref\":false,\"include_all_sentences\":false,\"sort_by_salience\":false,\"summary_length\":1\x7d" ∧
    ∃ req, requestsSent inner token [] s = [req] ∧
      req.Body = some ("\x7b\"articles\":[],\"coref\":false,\"include_all_sentences\":false,\"sort_by_salience\":false,\"summary_length\":1\x7d" ++ "\n") := by
  refine ⟨rfl, by decide, _, requestsSent_eq inner token [] s, ?_⟩
  show some (payloadOf []).Encode = _
  decide

/-- C6: when the HTTP send fails with `err`, `Do` and `Summarize` return
`err` itself as their error, not an `ApiError`, and no result; the HTTP
client has been called once, with the request, and not again. -/
theorem send_failure_returned {σ : Type} (inner : http.Client σ) (token : String)
    (calls : List OptionCall) (s : σ) (log : List http.Request) (err : String) :
    ∃ c, New (recording inner) token = .ok c ∧
      (∀ req v, (inner (sentRequest req) s).1 = .error err →
        c.Do req v (s, log) =
          ((some (.send err), v), ((inner (sentRequest req) s).2, log ++ [sentRequest req]))) ∧
      (∃ req, c.NewRequest "POST" "/nlp/v0.2/summarize" (some (payloadOf calls)) = .ok req ∧
        ((inner (sentRequest req) s).1 = .error err →
          c.Summarize (calls.map OptionCall.option) (s, log) =
            (.error (.send err), ((inner (sentRequest req) s).2, log ++ [sentRequest req])))) ∧
      (∀ e : Error, GoError.send err ≠ GoError.api e) ∧
      (GoError.send err).Error = some err := by
  obtain ⟨c, req, hnew, hcl, hreq, -, -, -, -, hsum⟩ :=
    Summarize_eq_Do (recording inner) token (calls.map OptionCall.option) (s, log)
  have hdo : ∀ req v, (inner (sentRequest req) s).1 = .error err →
      c.Do req v (s, log) =
        ((some (.send err), v), ((inner (sentRequest req) s).2, log ++ [sentRequest req])) := by
    intro req v h
    apply Do_send_error
    rw [hcl]
    simp only [recording, h]
  refine ⟨c, hnew, hdo, ⟨req, hreq, ?_⟩, (fun e h => by cases h), rfl⟩
  intro h
  rw [hsum, hdo req Result.zero h]

/-- C6 at a client whose every send fails with `connection refused`: the
error comes back as it is and the counter of sends goes from 0 to 1. -/
theorem send_failure_returned_witness :
    ∃ c, New (recording (fixedClient (.error "connection refused"))) "token" = .ok c ∧
      (c.Summarize [] (0, [])).1 = .error (.send "connection refused") ∧
      (c.Summarize [] (0, [])).2.1 = 1 ∧
      (c.Summarize [] (0, [])).2.2.length = 1 := by
  obtain ⟨c, hnew, -, ⟨req, -, hsum⟩, -, -⟩ :=
    send_failure_returned (fixedClient (.error "connection refused")) "token" [] 0 []
      "connection refused"
  have h := hsum rfl
  simp only [List.map_nil] at h
  exact ⟨c, hnew, by rw [h], by rw [h]; rfl, by rw [h]; rfl⟩

end agologo

namespace agologo

theorem decInt_ok (goType : String) (n t : Int) (h1 : -(2 ^ 63) ≤ n) (h2 : n < 2 ^ 63) :
    json.decInt goType (.num (.int n)) t = (n, none) := by
  simp only [json.decInt]
  rw [if_pos ⟨h1, h2⟩]

theorem Error_decode_wellformed (n : Int) (m : String) (h1 : -(2 ^ 63) ≤ n) (h2 : n < 2 ^ 63) :
    (json.Decode Error.decoder
      (.value (.obj [("statusCode", .num (.int n)), ("message", .str m)])) Error.zero) =
      (⟨n, m⟩, none) := by
  simp [json.Decode, Error.decoder, json.decStruct, json.decMembers, json.findField, Error.fields,
    List.find?, decInt_ok "int" n 0 h1 h2, json.decString, json.saveError, Error.zero]

theorem Error_decode_wellformed_swapped (n : Int) (m : String) (h1 : -(2 ^ 63) ≤ n)
    (h2 : n < 2 ^ 63) :
    (json.Decode Error.decoder
      (.value (.obj [("message", .str m), ("statusCode", .num (.int n))])) Error.zero) =
      (⟨n, m⟩, none) := by
  simp [json.Decode, Error.decoder, json.decStruct, json.decMembers, json.findField, Error.fields,
    List.find?, decInt_ok "int" n 0 h1 h2, json.decString, json.saveError, Error.zero]

theorem Error_decode_mistyped (x : json.Value) (m : String) (hx : ∀ n, x ≠ .num (.int n)) :
    (json.Decode Error.decoder
      (.value (.obj [("message", .str m), ("statusCode", x)])) Error.zero).1 = ⟨0, m⟩ := by
  have h : (json.decInt "int" x 0).1 = 0 := by
    unfold json.decInt
    split
    · rfl
    · rename_i n
      exact absurd rfl (hx n)
    · rfl
    · rfl
  simp [json.Decode, Error.decoder, json.decStruct, json.decMembers, json.findField, Error.fields,
    List.find?, json.decString, Error.zero, h]

theorem Error_decode_not_object (body : json.Stream) (h : ∀ kvs, body ≠ .value (.obj kvs)) :
    (json.Decode Error.decoder body Error.zero).1 = Error.zero := by
  cases body with
  | broken err => rfl
  | value v =>
    cases v with
    | obj kvs => exact absurd rfl (h kvs)
    | _ => rfl

/-- C3, as stated, fails: the body `{"message":"hi","statusCode":"oops"}`
does not decode as the error shape (the decoder reports an error), yet the
`ApiError` of the 400 response carries the message `hi`, not an empty one. -/
theorem mistyped_error_body_keeps_message :
    (json.Decode Error.decoder
      (.value (.obj [("message", .str "hi"), ("statusCode", .str "oops")])) Error.zero).2 =
        some (.unmarshalType "string" "int") ∧
    (summarizeWith (fixedClient (.ok ⟨400, .value (.obj [("message", .str "hi"),
        ("statusCode", .str "oops")])⟩)) "token" [] 0).1 =
      .error (.api { StatusCode := 0, Message := "hi" }) ∧
    ({ StatusCode := 0, Message := "hi" } : Error) ≠ { StatusCode := 0, Message := "" } := by
  refine ⟨by rfl, by rfl, by decide⟩

/-- C3, amended: on every response whose status is not 200, whatever the
body, `Do` and `Summarize` return an `ApiError` and no result, never a
decode error; its status code and message are the ones decoded from the
body, not the HTTP status; a body that is not a JSON object (no JSON at all,
or a value of another kind) gives status code 0 and an empty message; an
object with a `message` followed by a `statusCode` that is not an integer
gives status code 0 and still the message of the body. -/
theorem non_OK_returns_ApiError {σ : Type} (dc : http.Client σ) (token : String)
    (calls : List OptionCall) (s s' : σ) (resp : http.Response) (hstatus : resp.StatusCode ≠ 200) :
    ∃ c, New dc token = .ok c ∧
      (∀ req v, dc (sentRequest req) s = (.ok resp, s') →
        c.Do req v s =
          ((some (.api (json.Decode Error.decoder resp.Body Error.zero).1), v), s')) ∧
      (∃ req, c.NewRequest "POST" "/nlp/v0.2/summarize" (some (payloadOf calls)) = .ok req ∧
        (dc (sentRequest req) s = (.ok resp, s') →
          c.Summarize (calls.map OptionCall.option) s =
            (.error (.api (json.Decode Error.decoder resp.Body Error.zero).1), s'))) ∧
      (∀ n m, -(2 ^ 63) ≤ n → n < 2 ^ 63 →
        resp.Body = .value (.obj [("statusCode", .num (.int n)), ("message", .str m)]) ∨
          resp.Body = .value (.obj [("message", .str m), ("statusCode", .num (.int n))]) →
        (json.Decode Error.decoder resp.Body Error.zero).1 = ⟨n, m⟩) ∧
      ((∀ kvs, resp.Body ≠ .value (.obj kvs)) →
        (json.Decode Error.decoder resp.Body Error.zero).1 = Error.zero) ∧
      (∀ x m, (∀ n, x ≠ .num (.int n)) →
        resp.Body = .value (.obj [("message", .str m), ("statusCode", x)]) →
        (json.Decode Error.decoder resp.Body Error.zero).1 = ⟨0, m⟩) := by
  obtain ⟨c, req, hnew, hcl, hreq, -, -, -, -, hsum⟩ :=
    Summarize_eq_Do dc token (calls.map OptionCall.option) s
  have hdo : ∀ req v, dc (sentRequest req) s = (.ok resp, s') →
      c.Do req v s =
        ((some (.api (json.Decode Error.decoder resp.Body Error.zero).1), v), s') := by
    intro req v h
    exact Do_not_OK c req v s s' resp (by rw [hcl]; exact h) hstatus
  refine ⟨c, hnew, hdo, ⟨req, hreq, ?_⟩, ?_, Error_decode_not_object resp.Body, ?_⟩
  · intro h
    rw [hsum, hdo req Result.zero h]
  · intro n m h1 h2 hb
    rcases hb with hb | hb
    · rw [hb, Error_decode_wellformed n m h1 h2]
    · rw [hb, Error_decode_wellformed_swapped n m h1 h2]
  · intro x m hx hb
    rw [hb, Error_decode_mistyped x m hx]

/-- C3 at a response with HTTP status 503 and the body
`{"statusCode":429,"message":"rate limited"}`: the `ApiError` carries 429,
the status code of the body. -/
theorem non_OK_returns_ApiError_witness :
    ∃ c, New (fixedClient (.ok ⟨503, .value (.obj [("statusCode", .num (.int 429)),
        ("message", .str "rate limited")])⟩)) "token" = .ok c ∧
      c.Summarize [] 0 = (.error (.api ⟨429, "rate limited"⟩), 1) := by
  obtain ⟨c, hnew, -, ⟨req, -, hsum⟩, hwf, -, -⟩ :=
    non_OK_returns_ApiError (fixedClient (.ok ⟨503, .value (.obj [("statusCode", .num (.int 429)),
        ("message", .str "rate limited")])⟩)) "token" [] 0 1 ⟨503, .value (.obj [("statusCode", .num (.int 429)),
        ("message", .str "rate limited")])⟩ (by decide)
  refine ⟨c, hnew, ?_⟩
  have h := hsum rfl
  rw [hwf 429 "rate limited" (by decide) (by decide) (Or.inl rfl)] at h
  exact h

end agologo

/-! ## Lists -/

theorem perm_four {α : Type} (a b c d : α) (l : List α) (h : l.Perm [a, b, c, d]) :
    l ∈ [[a, b, c, d], [b, a, c, d], [c, b, a, d], [b, c, a, d], [c, a, b, d], [a, c, b, d],
         [d, c, b, a], [c, d, b, a], [c, b, d, a], [d, b, c, a], [b, d, c, a], [b, c, d, a],
         [d, a, b, c], [a, d, b, c], [a, b, d, c], [d, b, a, c], [b, d, a, c], [b, a, d, c],
         [d, a, c, b], [a, d, c, b], [a, c, d, b], [d, c, a, b], [c, d, a, b], [c, a, d, b]] := by
  rw [← List.mem_permutations] at h
  simp [List.permutations, List.permutationsAux_cons, List.permutationsAux2] at h
  simp
  tauto

namespace agologo

/-! ## Decoding a success body -/

theorem decAny_ok (x t : json.Value) (h : x.firstBad = none) :
    json.decAny x t = (x.toInterface, none) := by
  cases x with
  | null => simp [json.decAny, json.Value.toInterface]
  | num n =>
    have hf : n.fitsFloat64 = true := by
      by_contra hn
      simp [json.Value.firstBad, hn] at h
    simp [json.decAny, json.Value.toInterface, hf]
  | bool b => simp [json.decAny, h]
  | str s => simp [json.decAny, h]
  | arr xs => simp [json.decAny, h]
  | obj kvs => simp [json.decAny, h]

theorem decElems_any (xs : List json.Value) (prev : List json.Value)
    (h : ∀ x ∈ xs, x.firstBad = none) :
    json.decElems .null json.decAny xs prev = (xs.map json.Value.toInterface, none) := by
  induction xs generalizing prev with
  | nil => rfl
  | cons x xs ih =>
    simp only [json.decElems, List.map_cons]
    rw [decAny_ok x _ (h x (List.mem_cons_self x xs)),
      ih prev.tail (fun y hy => h y (List.mem_cons_of_mem x hy))]
    rfl

theorem decElems_str (xs : List String) (prev : List String) :
    json.decElems "" json.decString (xs.map .str) prev = (xs, none) := by
  induction xs generalizing prev with
  | nil => rfl
  | cons x xs ih =>
    simp only [List.map_cons, json.decElems, ih prev.tail]
    rfl

theorem decElems_int (xs : List Int) (prev : List Int)
    (h : ∀ n ∈ xs, -(2 ^ 63) ≤ n ∧ n < 2 ^ 63) :
    json.decElems 0 (json.decInt "int64") (xs.map (fun n => .num (.int n))) prev = (xs, none) := by
  induction xs generalizing prev with
  | nil => rfl
  | cons x xs ih =>
    simp only [List.map_cons, json.decElems]
    rw [decInt_ok "int64" x _ (h x (List.mem_cons_self x xs)).1 (h x (List.mem_cons_self x xs)).2,
      ih prev.tail (fun y hy => h y (List.mem_cons_of_mem x hy))]
    rfl

theorem Metadata_decode (e : EntryData) (md : List (String × json.Value)) (t : Metadata)
    (hmd : md.Perm [("icon", e.icon), ("origin", .str e.origin), ("source", .str e.source),
      ("url", .str e.url)])
    (hicon : e.icon.firstBad = none) :
    Metadata.decoder (.obj md) t =
      ({ Icon := e.icon.toInterface, Origin := e.origin, Source := e.source, Url := e.url }, none) := by
  have hm := perm_four _ _ _ _ md hmd
  simp only [List.mem_cons, List.mem_singleton, List.not_mem_nil, or_false] at hm
  rcases hm with rfl | rfl | rfl | rfl | rfl | rfl | rfl | rfl | rfl | rfl | rfl | rfl | rfl | rfl | rfl | rfl | rfl | rfl | rfl | rfl | rfl | rfl | rfl | rfl <;>
    simp [Metadata.decoder, json.decStruct, json.decMembers, json.findField, Metadata.fields,
      List.find?, decAny_ok e.icon _ hicon, json.decString, json.saveError]

theorem SummaryEntry_decode (e : EntryData) (v : json.Value) (t : SummaryEntry)
    (hv : e.describes v) (h : e.representable) :
    SummaryEntry.decoder v t = (e.toEntry, none) := by
  obtain ⟨hicon, hquotes, hranks⟩ := h
  obtain ⟨members, md, rfl, hmembers, hmd⟩ := hv
  have hm := perm_four _ _ _ _ members hmembers
  simp only [List.mem_cons, List.mem_singleton, List.not_mem_nil, or_false] at hm
  rcases hm with rfl | rfl | rfl | rfl | rfl | rfl | rfl | rfl | rfl | rfl | rfl | rfl | rfl | rfl | rfl | rfl | rfl | rfl | rfl | rfl | rfl | rfl | rfl | rfl <;>
    simp [SummaryEntry.decoder, json.decStruct, json.decMembers, json.findField,
      SummaryEntry.fields, List.find?, json.decSlice,
      Metadata_decode e md _ hmd hicon, decElems_any e.quotes _ hquotes,
      decElems_int e.ranks _ hranks, decElems_str, json.saveError, EntryData.toEntry]

theorem decElems_entry (es : List EntryData) (vs : List json.Value) (prev : List SummaryEntry)
    (hv : List.Forall₂ EntryData.describes es vs) (h : ∀ e ∈ es, e.representable) :
    json.decElems SummaryEntry.zero SummaryEntry.decoder vs prev =
      (es.map EntryData.toEntry, none) := by
  induction hv generalizing prev with
  | nil => rfl
  | @cons e v es vs hd _ ih =>
    simp only [List.map_cons, json.decElems]
    rw [SummaryEntry_decode e v _ hd (h e (List.mem_cons_self e es)),
      ih prev.tail (fun y hy => h y (List.mem_cons_of_mem e hy))]
    rfl

theorem Result_decode (photos : List String) (summary : List EntryData) (title : String)
    (candidates : List json.Value) (v : json.Value) (t : Result)
    (hv : SuccessBody photos summary title candidates v)
    (hs : ∀ e ∈ summary, e.representable) (hc : ∀ x ∈ candidates, x.firstBad = none) :
    Result.decoder v t =
      ({ Photos := some photos, Summary := some (summary.map EntryData.toEntry), Title := title,
         TitleCandidates := some (candidates.map json.Value.toInterface) }, none) := by
  obtain ⟨members, entries, rfl, hmembers, hentries⟩ := hv
  have hm := perm_four _ _ _ _ members hmembers
  simp only [List.mem_cons, List.mem_singleton, List.not_mem_nil, or_false] at hm
  rcases hm with rfl | rfl | rfl | rfl | rfl | rfl | rfl | rfl | rfl | rfl | rfl | rfl | rfl | rfl | rfl | rfl | rfl | rfl | rfl | rfl | rfl | rfl | rfl | rfl <;>
    simp [Result.decoder, json.decStruct, json.decMembers, json.findField,
      Result.fields, List.find?, json.decSlice, decElems_any candidates _ hc,
      decElems_entry summary entries _ hentries hs, decElems_str, json.decString, json.saveError]

theorem EntryData.describes_toJSON (e : EntryData) : e.describes e.toJSON :=
  ⟨_, _, rfl, List.Perm.refl _, List.Perm.refl _⟩

theorem SuccessBody_successJSON (photos : List String) (summary : List EntryData) (title : String)
    (candidates : List json.Value) :
    SuccessBody photos summary title candidates (successJSON photos summary title candidates) := by
  refine ⟨_, _, rfl, List.Perm.refl _, ?_⟩
  induction summary with
  | nil => exact List.Forall₂.nil
  | cons e es ih => exact List.Forall₂.cons (EntryData.describes_toJSON e) ih

end agologo

namespace agologo

set_option exponentiation.threshold 1024 in
/-- C5, as stated, fails: a success body whose one entry has the rank
9223372036854775808, an integer that is no int64, and a success body with
the number `1e999`, which is no float64, among its title candidates, both
with status 200, make `Summarize` return a decode error and no result. -/
theorem success_body_decode_error :
    SuccessBody [] [⟨.null, "", "", "", [], [9223372036854775808], []⟩] "" []
      (successJSON [] [⟨.null, "", "", "", [], [9223372036854775808], []⟩] "" []) ∧
    (summarizeWith (fixedClient (.ok ⟨200, .value
        (successJSON [] [⟨.null, "", "", "", [], [9223372036854775808], []⟩] "" [])⟩)) "token" [] 0).1 =
      .error (.json (.unmarshalType "number 9223372036854775808" "int64")) ∧
    SuccessBody [] [] "" [.num (.real "1e999" 1 999)]
      (successJSON [] [] "" [.num (.real "1e999" 1 999)]) ∧
    (summarizeWith (fixedClient (.ok ⟨200, .value
        (successJSON [] [] "" [.num (.real "1e999" 1 999)])⟩)) "token" [] 0).1 =
      .error (.json (.unmarshalType "number 1e999" "float64")) := by
  refine ⟨SuccessBody_successJSON _ _ _ _, by rfl, SuccessBody_successJSON _ _ _ _, by rfl⟩

/-- C5, amended: on a response with status 200, `Summarize` returns what the
decoder makes of the body.  For a success body (an object with `photos`,
`summary`, `title` and `title_candidates`, the entries of `summary` with
`metadata`, `quotes`, `ranks` and `sentences`, members in any order) in
which every rank is an int64 value and every number inside `icon`, `quotes`
and `title_candidates` is in the range of float64 (the hypotheses
`EntryData.representable` and `firstBad = none`), no error and a result that
holds these values field for field; whenever the decoder reports an error,
that error and no result. -/
theorem OK_returns_decoded_result {σ : Type} (dc : http.Client σ) (token : String)
    (calls : List OptionCall) (s s' : σ) (resp : http.Response) (hstatus : resp.StatusCode = 200) :
    ∃ c req, New dc token = .ok c ∧
      c.NewRequest "POST" "/nlp/v0.2/summarize" (some (payloadOf calls)) = .ok req ∧
      (dc (sentRequest req) s = (.ok resp, s') →
        (∀ photos summary title candidates,
          (∀ e ∈ summary, EntryData.representable e) →
          (∀ x ∈ candidates, json.Value.firstBad x = none) →
          (∃ v, resp.Body = .value v ∧ SuccessBody photos summary title candidates v) →
          c.Summarize (calls.map OptionCall.option) s =
            (.ok { Photos := some photos,
                   Summary := some (summary.map EntryData.toEntry),
                   Title := title,
                   TitleCandidates := some (candidates.map json.Value.toInterface) }, s')) ∧
        (∀ v, json.Decode Result.decoder resp.Body Result.zero = (v, none) →
          c.Summarize (calls.map OptionCall.option) s = (.ok v, s')) ∧
        (∀ v err, json.Decode Result.decoder resp.Body Result.zero = (v, some err) →
          c.Summarize (calls.map OptionCall.option) s = (.error (.json err), s'))) := by
  obtain ⟨c, req, hnew, hcl, hreq, -, -, -, -, hsum⟩ :=
    Summarize_eq_Do dc token (calls.map OptionCall.option) s
  refine ⟨c, req, hnew, hreq, ?_⟩
  intro hsend
  have hdo := Do_OK c req Result.zero s s' resp (by rw [hcl]; exact hsend) hstatus
  have hok : ∀ v, json.Decode Result.decoder resp.Body Result.zero = (v, none) →
      c.Summarize (calls.map OptionCall.option) s = (.ok v, s') := by
    intro v hv
    rw [hsum, hdo, hv]
    rfl
  refine ⟨?_, hok, ?_⟩
  · intro photos summary title candidates hs hc hb
    obtain ⟨v, hb, hv⟩ := hb
    apply hok
    rw [hb]
    exact Result_decode photos summary title candidates v Result.zero hv hs hc
  · intro v err hv
    rw [hsum, hdo, hv]
    rfl

/-- C5 at a 200 response with a success body of one photo, one summary
entry, a title and one title candidate. -/
theorem OK_returns_decoded_result_witness :
    ∃ c, New (fixedClient (.ok ⟨200, .value (successJSON ["p.png"]
        [⟨.obj [("w", .num (.int 16))], "o", "src", "http://a", [.str "q"], [1, 2], ["One.", "Two."]⟩]
        "T" [.str "T2"])⟩)) "token" = .ok c ∧
      c.Summarize [] 0 =
        (.ok { Photos := some ["p.png"],
               Summary := some [⟨⟨.obj [("w", .num (.int 16))], "o", "src", "http://a"⟩,
                                 some [.str "q"], some [1, 2], some ["One.", "Two."]⟩],
               Title := "T",
               TitleCandidates := some [.str "T2"] }, 1) := by
  obtain ⟨c, req, hnew, -, h⟩ :=
    OK_returns_decoded_result (fixedClient (.ok ⟨200, .value (successJSON ["p.png"]
        [⟨.obj [("w", .num (.int 16))], "o", "src", "http://a", [.str "q"], [1, 2], ["One.", "Two."]⟩]
        "T" [.str "T2"])⟩)) "token" [] 0 1 ⟨200, .value (successJSON ["p.png"]
        [⟨.obj [("w", .num (.int 16))], "o", "src", "http://a", [.str "q"], [1, 2], ["One.", "Two."]⟩]
        "T" [.str "T2"])⟩ rfl
  refine ⟨c, hnew, ?_⟩
  have h2 := (h rfl).1 ["p.png"]
    [⟨.obj [("w", .num (.int 16))], "o", "src", "http://a", [.str "q"], [1, 2], ["One.", "Two."]⟩]
    "T" [.str "T2"]
    (by
      intro e he
      simp only [List.mem_singleton] at he
      subst he
      refine ⟨by decide, ?_, ?_⟩
      · intro q hq
        simp only [List.mem_singleton] at hq
        subst hq
        decide
      · intro n hn
        simp only [List.mem_cons, List.mem_singleton, List.not_mem_nil, or_false] at hn
        rcases hn with rfl | rfl <;> decide)
    (by
      intro x hx
      simp only [List.mem_singleton] at hx
      subst hx
      decide)
    ⟨_, rfl, SuccessBody_successJSON _ _ _ _⟩
  simp only [List.map_nil] at h2
  rw [h2]
  rfl

end agologo
